import Mathlib

/-!
Verification of the `swerve` mesh-refinement engine against its design
specification.  The repository ships only the interface headers
(`Mesh_cuda.h`, `Sea.h`); every function body referenced below is absent
from the sources, so the operational content is modelled from the
specification's own description of each operation, over exact rationals
in place of single-precision floats.
-/

/-- Error taxonomy of the engine (spec §7): validation failures at
construction time and the fatal `SingularMatrix` condition of the dense
solver. -/
inductive SeaError
  | invalidModel (level : ℕ)
  | invalidVecDim (level : ℕ)
  | invalidRefinement
  | invalidCoverage
  | lengthMismatch
  | singularMatrix
  deriving Repr, DecidableEq

/-- Modelled from the spec: the body of `Sea::invert_mat` is not in `src/`
(only its declaration in `Mesh_cuda.h`).  Spec §4.2's contract — Gaussian
elimination with partial pivoting that overwrites the square input with its
inverse, and reports `SingularMatrix` exactly when a pivot is numerically
zero (i.e. the matrix is singular) — is modelled functionally over exact
rationals: the returned matrix is `det⁻¹ • adjugate`, which is the matrix
inverse Gaussian elimination computes, and the error branch is taken
exactly on vanishing determinant (the exact-arithmetic meaning of every
pivot candidate in some column being zero). -/
def invert_mat (m : ℕ) (A : Matrix (Fin m) (Fin m) ℚ) :
    Except SeaError (Matrix (Fin m) (Fin m) ℚ) :=
  if A.det = 0 then .error .singularMatrix
  else .ok (A.det⁻¹ • A.adjugate)

/-- Modelled from the spec: §4.6/§7 — a timestep phase that needs a dense
solve feeds the solver's result into the rest of the step; a
`SingularMatrix` report aborts the step (error propagation models the
collective abort, spec §5). -/
def solve_in_step {σ : Type} (m : ℕ) (A : Matrix (Fin m) (Fin m) ℚ)
    (rest : Matrix (Fin m) (Fin m) ℚ → Except SeaError σ) : Except SeaError σ :=
  (invert_mat m A).bind rest

lemma invert_mat_of_det_ne (m : ℕ) (A : Matrix (Fin m) (Fin m) ℚ)
    (h : A.det ≠ 0) : invert_mat m A = .ok A⁻¹ := by
  rw [invert_mat, if_neg h, Matrix.inv_def, Ring.inverse_eq_inv]

/-- C1: for every square non-singular matrix `A`, `invert_mat` succeeds and
returns a matrix `B` with `A * B = 1` and `B * A = 1` (the product with the
inverse is the identity), and applying `invert_mat` to `B` returns the
original matrix `A` (the involution property); over the exact-rational
model, equality is exact, hence within any floating-point tolerance. -/
theorem C1_invert_mat_inverse (m : ℕ) (A : Matrix (Fin m) (Fin m) ℚ)
    (h : A.det ≠ 0) :
    ∃ B, invert_mat m A = .ok B ∧ A * B = 1 ∧ B * A = 1 ∧
      invert_mat m B = .ok A := by
  have hu : IsUnit A.det := isUnit_iff_ne_zero.mpr h
  refine ⟨A⁻¹, invert_mat_of_det_ne m A h, Matrix.mul_nonsing_inv A hu,
    Matrix.nonsing_inv_mul A hu, ?_⟩
  have hdet : A⁻¹.det ≠ 0 := by
    rw [Matrix.det_nonsing_inv, Ring.inverse_eq_inv]
    exact inv_ne_zero h
  rw [invert_mat_of_det_ne m A⁻¹ hdet, Matrix.nonsing_inv_nonsing_inv A hu]

/-- Witness for C1 at the concrete non-singular matrix `!![2, 0; 0, 1]`. -/
theorem C1_invert_mat_inverse_witness :
    ∃ B, invert_mat 2 !![(2 : ℚ), 0; 0, 1] = .ok B ∧
      !![(2 : ℚ), 0; 0, 1] * B = 1 ∧ B * !![(2 : ℚ), 0; 0, 1] = 1 ∧
      invert_mat 2 B = .ok !![(2 : ℚ), 0; 0, 1] :=
  C1_invert_mat_inverse 2 !![(2 : ℚ), 0; 0, 1]
    (by simp [Matrix.det_fin_two_of])

/-- C2: `invert_mat` reports `SingularMatrix` if and only if the input
matrix is non-invertible (exactly when a pivot is zero, i.e. the
determinant vanishes); and the failure is fatal: any timestep phase built
on the solve aborts with the same `SingularMatrix` error instead of
proceeding, whatever the rest of the step would have computed. -/
theorem C2_singular_matrix_fatal (m : ℕ) (A : Matrix (Fin m) (Fin m) ℚ) :
    (invert_mat m A = .error .singularMatrix ↔ ¬IsUnit A.det) ∧
    (∀ (σ : Type) (rest : Matrix (Fin m) (Fin m) ℚ → Except SeaError σ),
      ¬IsUnit A.det → solve_in_step m A rest = .error .singularMatrix) := by
  have hiff : invert_mat m A = .error .singularMatrix ↔ ¬IsUnit A.det := by
    rw [isUnit_iff_ne_zero, not_not]
    constructor
    · intro herr
      by_contra hne
      rw [invert_mat, if_neg hne] at herr
      exact Except.noConfusion herr
    · intro hz
      rw [invert_mat, if_pos hz]
  refine ⟨hiff, fun σ rest hsing => ?_⟩
  rw [solve_in_step, hiff.mpr hsing]
  rfl

/-- Witness for C2 at the concrete singular (zero) 2×2 matrix. -/
theorem C2_singular_matrix_fatal_witness :
    invert_mat 2 (0 : Matrix (Fin 2) (Fin 2) ℚ) = .error .singularMatrix :=
  (C2_singular_matrix_fatal 2 0).1.mpr (by simp)

/-- A level state array (spec §3): a dense field of conserved quantities
indexed by x, y, z and state-vector component.  Absolute x indices run over
`0 ≤ x < n_x + 2*ng` with the interior at `ng ≤ x < n_x + ng` (likewise in
y); the z direction carries no ghost layer. -/
def Grid (α : Type) : Type := ℕ → ℕ → ℕ → ℕ → α

/-- Modelled from the spec: the source index a ghost index reads from in
one direction, for `Sea::bcs` (body not in `src/`, only its declaration in
`Mesh_cuda.h`).  Spec §4.5: in periodic mode a ghost cell copies from the
opposite interior edge modulo the grid width; in outflow mode it copies
the nearest interior edge value.  Interior indices map to themselves. -/
def bc_index (periodic : Bool) (ng n i : ℕ) : ℕ :=
  if i < ng then (if periodic then i + n else ng)
  else if n + ng ≤ i then (if periodic then i - n else n + ng - 1)
  else i

/-- Modelled from the spec: `Sea::bcs(grid, n_x, n_y, n_z, vec_dim)` (body
not in `src/`).  Spec §4.5: fills the `ng`-wide ghost layer around the
interior in the x and y directions, per z layer and per state-vector
component, reading through `bc_index` in each direction (corner ghosts
combine both directions, as the sequential two-pass fill produces). -/
def bcs (periodic : Bool) (ng : ℕ) (grid : Grid α)
    (n_x n_y n_z vec_dim : ℕ) : Grid α :=
  fun x y z c => grid (bc_index periodic ng n_x x) (bc_index periodic ng n_y y) z c

lemma bc_index_interior (periodic : Bool) (ng n i : ℕ)
    (hlo : ng ≤ i) (hhi : i < n + ng) : bc_index periodic ng n i = i := by
  unfold bc_index
  rw [if_neg (by omega), if_neg (by omega)]

lemma bc_index_true_low (ng n i : ℕ) (h : i < ng) :
    bc_index true ng n i = i + n := by
  simp [bc_index, h]

lemma bc_index_true_high (ng n i : ℕ) (h : n + ng ≤ i) :
    bc_index true ng n i = i - n := by
  have h1 : ¬i < ng := by omega
  simp [bc_index, h1, h]

/-- C3: with periodic boundaries, after `bcs` every ghost cell holds the
interior value at the opposite edge modulo the grid width: in each
direction the low ghost at relative index `-1` (absolute `ng - 1`) reads
the interior cell at relative `n-1` (absolute `n + ng - 1`), and the high
ghost at relative `n` (absolute `n + ng`) reads the interior cell at
relative `0` (absolute `ng`), for every z layer and component; in general
a low ghost at absolute `x < ng` reads absolute `x + n_x` and a high ghost
at absolute `x ≥ n_x + ng` reads absolute `x - n_x`. -/
theorem C3_periodic_ghosts (ng n_x n_y n_z vec_dim : ℕ) (grid : Grid ℚ)
    (x y z c : ℕ) (hng : 0 < ng)
    (hx : ng ≤ x ∧ x < n_x + ng) (hy : ng ≤ y ∧ y < n_y + ng) :
    (bcs true ng grid n_x n_y n_z vec_dim (ng - 1) y z c
       = grid (n_x + ng - 1) y z c) ∧
    (bcs true ng grid n_x n_y n_z vec_dim (n_x + ng) y z c = grid ng y z c) ∧
    (bcs true ng grid n_x n_y n_z vec_dim x (ng - 1) z c
       = grid x (n_y + ng - 1) z c) ∧
    (bcs true ng grid n_x n_y n_z vec_dim x (n_y + ng) z c = grid x ng z c) ∧
    (∀ x', x' < ng →
      bcs true ng grid n_x n_y n_z vec_dim x' y z c = grid (x' + n_x) y z c) ∧
    (∀ x', n_x + ng ≤ x' →
      bcs true ng grid n_x n_y n_z vec_dim x' y z c = grid (x' - n_x) y z c) := by
  obtain ⟨hy1, hy2⟩ := hy
  obtain ⟨hx1, hx2⟩ := hx
  have hyid := bc_index_interior true ng n_y y hy1 hy2
  have hxid := bc_index_interior true ng n_x x hx1 hx2
  refine ⟨?_, ?_, ?_, ?_, ?_, ?_⟩
  · show grid (bc_index true ng n_x (ng - 1)) (bc_index true ng n_y y) z c = _
    rw [hyid, bc_index_true_low ng n_x (ng - 1) (by omega)]
    congr 1
    omega
  · show grid (bc_index true ng n_x (n_x + ng)) (bc_index true ng n_y y) z c = _
    rw [hyid, bc_index_true_high ng n_x (n_x + ng) (by omega)]
    congr 1
    omega
  · show grid (bc_index true ng n_x x) (bc_index true ng n_y (ng - 1)) z c = _
    rw [hxid, bc_index_true_low ng n_y (ng - 1) (by omega)]
    congr 1
    omega
  · show grid (bc_index true ng n_x x) (bc_index true ng n_y (n_y + ng)) z c = _
    rw [hxid, bc_index_true_high ng n_y (n_y + ng) (by omega)]
    congr 1
    omega
  · intro x' hx'
    show grid (bc_index true ng n_x x') (bc_index true ng n_y y) z c = _
    rw [hyid, bc_index_true_low ng n_x x' hx']
  · intro x' hx'
    show grid (bc_index true ng n_x x') (bc_index true ng n_y y) z c = _
    rw [hyid, bc_index_true_high ng n_x x' hx']

/-- Witness for C3: a 4×4 interior with one ghost cell (`ng = 1`), on the
grid that stores its own x index; the ghost at absolute 0 reads the
interior value at absolute 4. -/
theorem C3_periodic_ghosts_witness :
    (bcs true 1 (fun x _ _ _ => (x : ℚ)) 4 4 1 3 0 1 0 0
       = (fun x _ _ _ => (x : ℚ)) 4 1 0 0) ∧
    (bcs true 1 (fun x _ _ _ => (x : ℚ)) 4 4 1 3 5 1 0 0
       = (fun x _ _ _ => (x : ℚ)) 1 1 0 0) := by
  have h := C3_periodic_ghosts 1 4 4 1 3 (fun x _ _ _ => (x : ℚ)) 1 1 0 0
    (by omega) (by omega) (by omega)
  exact ⟨h.1, h.2.1⟩

lemma bc_index_false_clamp (ng n i : ℕ) (hn : 0 < n) :
    bc_index false ng n i = min (max i ng) (n + ng - 1) := by
  have hf : ∀ a b : ℕ, (if (false : Bool) then a else b) = b := fun a b => rfl
  unfold bc_index
  simp only [hf]
  split_ifs <;> omega

/-- C4: with outflow boundaries, after `bcs` every ghost cell equals the
value of its nearest interior edge cell (zero-gradient extrapolation), for
every z layer and state-vector component: each coordinate of the read
position is the input coordinate clamped to the interior range
`[ng, n + ng - 1]`, which is the nearest interior cell (and interior cells
read themselves). -/
theorem C4_outflow_ghosts (ng n_x n_y n_z vec_dim : ℕ) (grid : Grid ℚ)
    (hnx : 0 < n_x) (hny : 0 < n_y) :
    ∀ x y z c, bcs false ng grid n_x n_y n_z vec_dim x y z c
      = grid (min (max x ng) (n_x + ng - 1)) (min (max y ng) (n_y + ng - 1)) z c := by
  intro x y z c
  show grid (bc_index false ng n_x x) (bc_index false ng n_y y) z c = _
  rw [bc_index_false_clamp ng n_x x hnx, bc_index_false_clamp ng n_y y hny]

/-- Witness for C4: a 4×4 interior with one ghost cell (`ng = 1`), on the
grid that stores its own x index; evaluated at the low ghost column 0,
whose nearest interior cell is column 1. -/
theorem C4_outflow_ghosts_witness :
    bcs false 1 (fun x _ _ _ => (x : ℚ)) 4 4 1 3 0 2 0 0 = (1 : ℚ) := by
  rw [C4_outflow_ghosts 1 4 4 1 3 (fun x _ _ _ => (x : ℚ)) (by omega) (by omega) 0 2 0 0]
  norm_num

/-- C10: `bcs` writes only the ghost layer: for both boundary modes and
every grid, every interior cell (both coordinates in `[ng, n + ng)`) of
every z layer and state-vector component holds exactly the same value
after the call as before it. -/
theorem C10_bcs_frame (periodic : Bool) (ng n_x n_y n_z vec_dim : ℕ)
    (grid : Grid ℚ) (x y z c : ℕ)
    (hx : ng ≤ x ∧ x < n_x + ng) (hy : ng ≤ y ∧ y < n_y + ng) :
    bcs periodic ng grid n_x n_y n_z vec_dim x y z c = grid x y z c := by
  show grid (bc_index periodic ng n_x x) (bc_index periodic ng n_y y) z c = _
  rw [bc_index_interior periodic ng n_x x hx.1 hx.2,
    bc_index_interior periodic ng n_y y hy.1 hy.2]

/-- Witness for C10: the interior cell (2, 3) of a 4×4 interior with one
ghost cell is untouched by a periodic `bcs` fill. -/
theorem C10_bcs_frame_witness :
    bcs true 1 (fun x y _ _ => (x + 10 * y : ℚ)) 4 4 1 3 2 3 0 0
      = (fun x y _ _ => (x + 10 * y : ℚ)) 2 3 0 0 :=
  C10_bcs_frame true 1 4 4 1 3 (fun x y _ _ => (x + 10 * y : ℚ)) 2 3 0 0
    (by omega) (by omega)

/-- Modelled from the spec: `Sea::initial_swe_data(D0, Sx0, Sy0)` (body not
in `src/`, only its declaration in `Mesh_cuda.h`).  Spec §4.4: writes the
given primitive fields directly as the initial conserved state — the three
components D, Sx, Sy of each cell of the flat state buffer, interleaved
with stride 3, with no arithmetic transformation applied. -/
def initial_swe_data (D0 Sx0 Sy0 : ℕ → ℚ) : ℕ → ℚ := fun i =>
  if i % 3 = 0 then D0 (i / 3)
  else if i % 3 = 1 then Sx0 (i / 3)
  else Sy0 (i / 3)

/-- Modelled from the spec: `Sea::initial_compressible_data(D0, Sx0, Sy0,
Sz0, tau0)` (body not in `src/`).  Spec §4.4: same placement for the 3D
compressible conserved state {D, Sx, Sy, Sz, tau}, stride 5. -/
def initial_compressible_data (D0 Sx0 Sy0 Sz0 tau0 : ℕ → ℚ) : ℕ → ℚ := fun i =>
  if i % 5 = 0 then D0 (i / 5)
  else if i % 5 = 1 then Sx0 (i / 5)
  else if i % 5 = 2 then Sy0 (i / 5)
  else if i % 5 = 3 then Sz0 (i / 5)
  else tau0 (i / 5)

/-- C5: the initial-data builders are pure placement operations: for every
input field and every cell, each component slot of the resulting state
buffer holds exactly the corresponding input value, with no arithmetic
transformation applied to any value. -/
theorem C5_initial_data_pure_placement (D0 Sx0 Sy0 Sz0 tau0 : ℕ → ℚ) (cell : ℕ) :
    (initial_swe_data D0 Sx0 Sy0 (3 * cell) = D0 cell ∧
     initial_swe_data D0 Sx0 Sy0 (3 * cell + 1) = Sx0 cell ∧
     initial_swe_data D0 Sx0 Sy0 (3 * cell + 2) = Sy0 cell) ∧
    (initial_compressible_data D0 Sx0 Sy0 Sz0 tau0 (5 * cell) = D0 cell ∧
     initial_compressible_data D0 Sx0 Sy0 Sz0 tau0 (5 * cell + 1) = Sx0 cell ∧
     initial_compressible_data D0 Sx0 Sy0 Sz0 tau0 (5 * cell + 2) = Sy0 cell ∧
     initial_compressible_data D0 Sx0 Sy0 Sz0 tau0 (5 * cell + 3) = Sz0 cell ∧
     initial_compressible_data D0 Sx0 Sy0 Sz0 tau0 (5 * cell + 4) = tau0 cell) := by
  unfold initial_swe_data initial_compressible_data
  have h30 : (3 * cell) % 3 = 0 := by omega
  have h31 : (3 * cell + 1) % 3 = 1 := by omega
  have h32 : (3 * cell + 2) % 3 = 2 := by omega
  have d30 : (3 * cell) / 3 = cell := by omega
  have d31 : (3 * cell + 1) / 3 = cell := by omega
  have d32 : (3 * cell + 2) / 3 = cell := by omega
  have h50 : (5 * cell) % 5 = 0 := by omega
  have h51 : (5 * cell + 1) % 5 = 1 := by omega
  have h52 : (5 * cell + 2) % 5 = 2 := by omega
  have h53 : (5 * cell + 3) % 5 = 3 := by omega
  have h54 : (5 * cell + 4) % 5 = 4 := by omega
  have d50 : (5 * cell) / 5 = cell := by omega
  have d51 : (5 * cell + 1) / 5 = cell := by omega
  have d52 : (5 * cell + 2) / 5 = cell := by omega
  have d53 : (5 * cell + 3) / 5 = cell := by omega
  have d54 : (5 * cell + 4) / 5 = cell := by omega
  simp [h30, h31, h32, d30, d31, d32, h50, h51, h52, h53, h54, d50, d51, d52,
    d53, d54]

/-- Modelled from the spec: the recognised physics-model tags, from the
`Mesh_cuda.h` field comment on `Sea::models` — S = single layer SWE,
M = multilayer SWE, C = compressible, L = Low Mach. -/
def recognized_model (c : Char) : Bool :=
  c = 'S' || c = 'M' || c = 'C' || c = 'L'

/-- Modelled from the spec: §4.3 fixes the state-vector width per model but
§9 leaves the low-Mach width open ("model-specific"); it is fixed here as a
named constant. -/
def low_mach_width : ℕ := 6

/-- Modelled from the spec: §4.3 — the state-vector width each model
requires: 2 for single-layer SWE, 2·n_layers for multilayer SWE, 5 for
compressible, and the model-specific width for low-Mach. -/
def model_width (nlayers : ℕ) (c : Char) : ℕ :=
  if c = 'S' then 2
  else if c = 'M' then 2 * nlayers
  else if c = 'C' then 5
  else low_mach_width

/-- The grid-hierarchy registry (spec §3): the construction parameters of a
`Sea` that the claims exercise, mirroring the fields of `class Sea` in
`Mesh_cuda.h`. -/
structure Sea where
  nx : ℕ
  ny : ℕ
  nt : ℕ
  ng : ℕ
  r : ℕ
  df : ℚ
  nlayers : ℕ
  models : List Char
  vec_dims : List ℕ
  periodic : Bool
  burning : Bool
  deriving Repr, DecidableEq

/-- Modelled from the spec: §4.3 — construction validates that every
level's model tag is one of the four recognised tags, failing with
`InvalidModel` naming the first offending level. -/
def check_models (lvl : ℕ) : List Char → Except SeaError Unit
  | [] => .ok ()
  | c :: rest =>
    if recognized_model c then check_models (lvl + 1) rest
    else .error (.invalidModel lvl)

/-- Modelled from the spec: §4.3 — construction validates that each level's
state-vector width matches its model's width, failing with `InvalidVecDim`
naming the first offending level. -/
def check_vec_dims (nlayers : ℕ) (lvl : ℕ) :
    List Char → List ℕ → Except SeaError Unit
  | [], [] => .ok ()
  | c :: cs, d :: ds =>
    if d = model_width nlayers c then check_vec_dims nlayers (lvl + 1) cs ds
    else .error (.invalidVecDim lvl)
  | _, _ => .error .lengthMismatch

/-- Modelled from the spec: the validating constructor `Sea::Sea`
(`Mesh_cuda.h` documents it as "Data is validated: an error will be thrown
and the program terminated if any of the inputs are found to be invalid";
its body is not in `src/`).  Spec §4.3's checks in order: refinement ratio
> 1, coverage fraction in (0,1], recognised model tags, per-level widths
matching the model.  Any violation fails construction, so no simulation
object exists and no timestep can execute. -/
def mkSea (s : Sea) : Except SeaError Sea :=
  if s.r ≤ 1 then .error .invalidRefinement
  else if ¬(0 < s.df ∧ s.df ≤ 1) then .error .invalidCoverage
  else
    (check_models 0 s.models).bind fun _ =>
      (check_vec_dims s.nlayers 0 s.models s.vec_dims).bind fun _ => .ok s

lemma ebind_error {α β : Type} (e : SeaError) (f : α → Except SeaError β) :
    (Except.error e : Except SeaError α).bind f = .error e := rfl

lemma ebind_ok {α β : Type} (a : α) (f : α → Except SeaError β) :
    (Except.ok a : Except SeaError α).bind f = f a := rfl

lemma check_models_finds_bad :
    ∀ (ms : List Char) (k : ℕ),
      (∃ (l : ℕ) (c : Char), ms[l]? = some c ∧ recognized_model c = false) →
      ∃ (l : ℕ) (c : Char), check_models k ms = .error (.invalidModel (k + l)) ∧
        ms[l]? = some c ∧ recognized_model c = false := by
  intro ms
  induction ms with
  | nil =>
    intro k h
    obtain ⟨l, c, hget, _⟩ := h
    simp at hget
  | cons c0 rest ih =>
    intro k h
    by_cases hrec : recognized_model c0
    · obtain ⟨l, c, hget, hbad⟩ := h
      cases l with
      | zero =>
        simp at hget
        rw [hget] at hrec
        rw [hrec] at hbad
        exact absurd hbad (by simp)
      | succ l0 =>
        simp only [List.getElem?_cons_succ] at hget
        obtain ⟨l2, c2, herr, hget2, hbad2⟩ := ih (k + 1) ⟨l0, c, hget, hbad⟩
        refine ⟨l2 + 1, c2, ?_, by simpa using hget2, hbad2⟩
        show check_models k (c0 :: rest) = _
        unfold check_models
        rw [if_pos hrec, herr]
        exact congrArg (fun n => (Except.error (SeaError.invalidModel n) :
          Except SeaError Unit)) (by omega)
    · refine ⟨0, c0, ?_, by simp, by simpa using hrec⟩
      show check_models k (c0 :: rest) = _
      unfold check_models
      rw [if_neg hrec, Nat.add_zero]

/-- C6: for every construction input whose other parameters are admissible
but in which some level's model tag is not one of the four recognised
models, construction fails with a validation error naming an offending
level (the tag at that level is indeed unrecognised), and no simulation
object is produced, so no timestep can execute. -/
theorem C6_invalid_model_rejected (s : Sea)
    (hr : 1 < s.r) (hdf : 0 < s.df ∧ s.df ≤ 1)
    (hbad : ∃ (l : ℕ) (c : Char), s.models[l]? = some c ∧
      recognized_model c = false) :
    (∃ (l : ℕ) (c : Char), mkSea s = .error (.invalidModel l) ∧
      s.models[l]? = some c ∧ recognized_model c = false) ∧
    ∀ t, mkSea s ≠ .ok t := by
  obtain ⟨l, c, herr, hget, hbadc⟩ := check_models_finds_bad s.models 0 hbad
  have hmk : mkSea s = .error (.invalidModel (0 + l)) := by
    unfold mkSea
    rw [if_neg (by omega), if_neg (not_not_intro hdf), herr, ebind_error]
  rw [Nat.zero_add] at hmk
  exact ⟨⟨l, c, hmk, hget, hbadc⟩,
    fun t ht => Except.noConfusion (hmk ▸ ht)⟩

/-- The construction input of the spec's malformed-model scenario (§8): an
otherwise admissible input whose level 2 declares the unrecognised model
tag 'X'. -/
def bad_model_sea : Sea :=
  { nx := 10, ny := 10, nt := 100, ng := 2, r := 2, df := 1, nlayers := 1,
    models := ['S', 'C', 'X'], vec_dims := [2, 5, 5], periodic := true,
    burning := false }

/-- Witness for C6: the scenario input with unrecognised tag 'X' on level 2
is rejected with a validation error naming that level. -/
theorem C6_invalid_model_rejected_witness :
    (∃ (l : ℕ) (c : Char), mkSea bad_model_sea = .error (.invalidModel l) ∧
      bad_model_sea.models[l]? = some c ∧ recognized_model c = false) ∧
    ∀ t, mkSea bad_model_sea ≠ .ok t :=
  C6_invalid_model_rejected bad_model_sea (by norm_num [bad_model_sea])
    (by norm_num [bad_model_sea]) ⟨2, 'X', by rfl, by rfl⟩

lemma check_vec_dims_ok_matches (nlayers : ℕ) :
    ∀ (ms : List Char) (ds : List ℕ) (k : ℕ),
      check_vec_dims nlayers k ms ds = .ok () →
      ∀ (l : ℕ) (c : Char) (d : ℕ), ms[l]? = some c → ds[l]? = some d →
        d = model_width nlayers c := by
  intro ms
  induction ms with
  | nil =>
    intro ds k hok l c d hc hd
    simp at hc
  | cons c0 cs ih =>
    intro ds k hok l c d hc hd
    cases ds with
    | nil => simp at hd
    | cons d0 ds0 =>
      unfold check_vec_dims at hok
      by_cases hw : d0 = model_width nlayers c0
      · rw [if_pos hw] at hok
        cases l with
        | zero =>
          simp at hc hd
          subst hc
          subst hd
          exact hw
        | succ l0 =>
          simp only [List.getElem?_cons_succ] at hc hd
          exact ih ds0 (k + 1) hok l0 c d hc hd
      · rw [if_neg hw] at hok
        exact Except.noConfusion hok

lemma mkSea_ok_inv (s t : Sea) (hok : mkSea s = .ok t) :
    t = s ∧ check_models 0 s.models = .ok () ∧
      check_vec_dims s.nlayers 0 s.models s.vec_dims = .ok () := by
  unfold mkSea at hok
  by_cases h1 : s.r ≤ 1
  · rw [if_pos h1] at hok
    exact Except.noConfusion hok
  · rw [if_neg h1] at hok
    by_cases h2 : ¬(0 < s.df ∧ s.df ≤ 1)
    · rw [if_pos h2] at hok
      exact Except.noConfusion hok
    · rw [if_neg h2] at hok
      rcases hcm : check_models 0 s.models with e | u
      · rw [hcm, ebind_error] at hok
        exact Except.noConfusion hok
      · rw [hcm, ebind_ok] at hok
        rcases hcv : check_vec_dims s.nlayers 0 s.models s.vec_dims with e | u2
        · rw [hcv, ebind_error] at hok
          exact Except.noConfusion hok
        · rw [hcv, ebind_ok] at hok
          cases u
          cases u2
          refine ⟨?_, rfl, rfl⟩
          cases hok
          rfl

/-- C9: every successfully constructed `Sea` satisfies, for every level,
that its state-vector width equals the width its model determines — 2 for
single-layer SWE, 2·n_layers for multilayer SWE, 5 for compressible, and
the model-specific width for low-Mach; construction rejects any input
violating this correspondence (a violating input cannot produce an `ok`
result, by this theorem's contrapositive). -/
theorem C9_vec_dims_match_models (s t : Sea) (hok : mkSea s = .ok t) :
    ∀ (l : ℕ) (c : Char) (d : ℕ), t.models[l]? = some c →
      t.vec_dims[l]? = some d → d = model_width t.nlayers c := by
  obtain ⟨ht, _, hcv⟩ := mkSea_ok_inv s t hok
  subst ht
  exact check_vec_dims_ok_matches t.nlayers t.models t.vec_dims 0 hcv

/-- An admissible construction input: two levels, single-layer SWE over
compressible, with matching state-vector widths. -/
def good_sea : Sea :=
  { nx := 10, ny := 10, nt := 0, ng := 2, r := 2, df := 1, nlayers := 1,
    models := ['S', 'C'], vec_dims := [2, 5], periodic := true,
    burning := false }

/-- Witness for C9: the admissible two-level input constructs successfully
and its compressible level's width 5 matches the model width. -/
theorem C9_vec_dims_match_models_witness :
    (5 : ℕ) = model_width good_sea.nlayers 'C' :=
  C9_vec_dims_match_models good_sea good_sea (by rfl) 1 'C' 5 (by rfl) (by rfl)

/-- Modelled from the spec: `Sea::run` (body not in `src/`, only its
declaration in `Mesh_cuda.h`).  Spec §4.6: the driver's loop runs the
per-timestep state machine (boundary fill, halo exchange, flux/source
evaluation, update, coupling, output gating) for `nt` steps; the step
itself is abstracted as a state transformer, since the spec gives its
phases but not closed-form flux formulas. -/
def run {σ : Type} (step : σ → σ) : ℕ → σ → σ
  | 0, s => s
  | n + 1, s => run step n (step s)

/-- The construction input of the spec's zero-step scenario (§8): a
two-level hierarchy — a coarse 10×10 single-layer-SWE grid and a fine
compressible grid on a 4×4 window with refinement ratio 2 — periodic
boundaries, burning disabled, `nt = 0`. -/
def scenario_sea : Sea :=
  { nx := 10, ny := 10, nt := 0, ng := 2, r := 2, df := 1, nlayers := 1,
    models := ['S', 'C'], vec_dims := [2, 5], periodic := true,
    burning := false }

/-- C7: the zero-step scenario constructs successfully with `nt = 0`, and
running the driver for its `nt` timesteps leaves every state exactly equal
to the initial data, whatever the per-timestep transformation is: zero
steps produce no change to any state value. -/
theorem C7_run_zero_steps :
    ∃ sea, mkSea scenario_sea = .ok sea ∧ sea.nt = 0 ∧
      ∀ (σ : Type) (step : σ → σ) (s0 : σ), run step sea.nt s0 = s0 :=
  ⟨scenario_sea, by rfl, rfl, fun σ step s0 => rfl⟩

/-- Modelled from the spec: prolongation (§4.6, glossary) — transfer of
state from a coarse grid to the fine grid over the matching window, each
fine cell interpolating from its parent coarse cell (piecewise-constant
interpolation in coarse/fine index coordinates, refinement ratio `r`). -/
def prolongation (r : ℕ) (coarse : ℕ → ℕ → ℚ) : ℕ → ℕ → ℚ :=
  fun i j => coarse (i / r) (j / r)

/-- Modelled from the spec: restriction (§4.6, glossary) — conserved
quantities of the fine grid are averaged down into the matching window of
the coarse parent, each coarse cell receiving the mean of its `r × r` fine
children, overwriting the coarse state there. -/
def restriction (r : ℕ) (fine : ℕ → ℕ → ℚ) : ℕ → ℕ → ℚ :=
  fun i j =>
    (∑ a ∈ Finset.range r, ∑ b ∈ Finset.range r, fine (r * i + a) (r * j + b))
      / ((r : ℚ) * r)

/-- C8: on a static field — a fine grid that is the prolongation of its
coarse parent, with no intervening physics step — restriction reproduces
the coarse window's pre-restriction values exactly (hence within any
discretization tolerance), and prolonging the restricted window back
reproduces the fine field: the coupling round trip is idempotent. -/
theorem C8_coupling_roundtrip (r : ℕ) (hr : 0 < r)
    (coarse fine : ℕ → ℕ → ℚ) (hstatic : fine = prolongation r coarse) :
    ∀ i j, restriction r fine i j = coarse i j ∧
      prolongation r (restriction r fine) i j = fine i j := by
  subst hstatic
  have key : ∀ (i a : ℕ), a ∈ Finset.range r → (r * i + a) / r = i := by
    intro i a ha
    rw [Finset.mem_range] at ha
    rw [Nat.mul_add_div hr, Nat.div_eq_of_lt ha, Nat.add_zero]
  have hres : ∀ i j, restriction r (prolongation r coarse) i j = coarse i j := by
    intro i j
    unfold restriction prolongation
    rw [Finset.sum_congr rfl fun a ha => Finset.sum_congr rfl fun b hb => by
      rw [key i a ha, key j b hb]]
    rw [Finset.sum_const, Finset.sum_const, Finset.card_range, smul_smul,
      nsmul_eq_mul]
    have hr0 : ((r : ℚ) * r) ≠ 0 := by
      have : (r : ℚ) ≠ 0 := Nat.cast_ne_zero.mpr (by omega)
      exact mul_ne_zero this this
    push_cast
    field_simp
  intro i j
  refine ⟨hres i j, ?_⟩
  show restriction r (prolongation r coarse) (i / r) (j / r) = _
  rw [hres (i / r) (j / r)]
  rfl

/-- Witness for C8: refinement ratio 2 over the coarse field storing
`i + 10·j`; the round trip at the coarse cell (1, 2) and the fine cell
(3, 5) returns the original values. -/
theorem C8_coupling_roundtrip_witness :
    restriction 2 (prolongation 2 (fun i j => (i + 10 * j : ℚ))) 1 2
        = (fun i j => (i + 10 * j : ℚ)) 1 2 ∧
      prolongation 2 (restriction 2 (prolongation 2 (fun i j => (i + 10 * j : ℚ)))) 3 5
        = prolongation 2 (fun i j => (i + 10 * j : ℚ)) 3 5 := by
  have h1 := (C8_coupling_roundtrip 2 (by omega) (fun i j => (i + 10 * j : ℚ))
    (prolongation 2 (fun i j => (i + 10 * j : ℚ))) rfl 1 2).1
  have h2 := (C8_coupling_roundtrip 2 (by omega) (fun i j => (i + 10 * j : ℚ))
    (prolongation 2 (fun i j => (i + 10 * j : ℚ))) rfl 3 5).2
  exact ⟨h1, h2⟩
